import Mathlib

/-!
Verification of `src/extensions/versions-latest-prerelease/vlp.js`
(an Antora extension managing "latest"/"dev" version pointers).

The development shallowly embeds the extension's pure core:

* the per-component version resolution performed in the `contentClassified`
  handler (vlp.js lines 204-228): `semver.coerce`, the descending stable
  sort by `semver.rcompare`, and the two `find` scans;
* the xref rewriting loop `modifyXrefsInText` (lines 78-148), including the
  stateful `lastIndex` behaviour of a JavaScript global regex re-executed
  against the mutated text;
* the path arithmetic (`path.resolve` / `path.join` / `path.relative`),
  `isSafePath` (lines 72-75) and the per-pointer symlink creation of the
  `sitePublished` handler (lines 294-320);
* `createSymlink` (lines 54-69) against a one-path filesystem model;
* the `index.html` rewrite of the `sitePublished` handler (lines 333-371),
  including the fact that `\b` inside a JavaScript template literal is the
  backspace character U+0008, not a regex word boundary.

Strings are modelled as `List Char` where character-level scanning matters.
-/

/-! ### Semantic versions and `semver.coerce` -/

/-- A coerced semantic version: `semver.coerce` always yields a plain
`major.minor.patch` value with no prerelease identifiers. -/
@[ext]
structure SemVer where
  major : Nat
  minor : Nat
  patch : Nat
deriving DecidableEq

/-- Strict order used by `semver.compare` on coerced versions: lexicographic
on (major, minor, patch).  Coerced versions never carry prerelease
identifiers, so the library's prerelease tie-breaking never fires. -/
def svLt (a b : SemVer) : Prop :=
  a.major < b.major ∨
    (a.major = b.major ∧
      (a.minor < b.minor ∨ (a.minor = b.minor ∧ a.patch < b.patch)))

instance : DecidableRel svLt := fun a b => by
  unfold svLt; infer_instance

theorem svLt_asymm {a b : SemVer} (h : svLt a b) : ¬ svLt b a := by
  unfold svLt at *; omega

theorem svLt_trans {a b c : SemVer} (h1 : svLt a b) (h2 : svLt b c) :
    svLt a c := by
  unfold svLt at *; omega

theorem svLt_connex {a b : SemVer} (h1 : ¬ svLt a b) (h2 : ¬ svLt b a) :
    a = b := by
  have h3 : a.major = b.major ∧ a.minor = b.minor ∧ a.patch = b.patch := by
    unfold svLt at *; omega
  exact SemVer.ext h3.1 h3.2.1 h3.2.2

/-- Numeric value of a digit run (most significant digit first). -/
def digitsToNat (ds : List Char) : Nat :=
  ds.foldl (fun n c => 10 * n + (c.toNat - 48)) 0

/-- Split a character list into its maximal leading digit run and the rest. -/
def splitDigits : List Char → List Char × List Char
  | [] => ([], [])
  | c :: cs =>
    if c.isDigit then
      let p := splitDigits cs
      (c :: p.1, p.2)
    else ([], c :: cs)

/-- The numeric part of `semver.coerce` starting at a digit: a major run,
then optionally `.minor`, then optionally `.patch`; missing parts are 0.
(The library's 16-digit cap on each run is not modelled; no claim involves
runs that long.) -/
def coerceFrom (cs : List Char) : SemVer :=
  let pmaj := splitDigits cs
  match pmaj.2 with
  | '.' :: c :: r2 =>
    if c.isDigit then
      let pmin := splitDigits (c :: r2)
      match pmin.2 with
      | '.' :: c2 :: r3 =>
        if c2.isDigit then
          let ppat := splitDigits (c2 :: r3)
          ⟨digitsToNat pmaj.1, digitsToNat pmin.1, digitsToNat ppat.1⟩
        else ⟨digitsToNat pmaj.1, digitsToNat pmin.1, 0⟩
      | _ => ⟨digitsToNat pmaj.1, digitsToNat pmin.1, 0⟩
    else ⟨digitsToNat pmaj.1, 0, 0⟩
  | _ => ⟨digitsToNat pmaj.1, 0, 0⟩

/-- Scan for the first digit and coerce from there; `none` when the label
contains no digit at all (then `semver.coerce` returns `null`). -/
def coerceScan : List Char → Option SemVer
  | [] => none
  | c :: cs => if c.isDigit then some (coerceFrom (c :: cs)) else coerceScan cs

/-- Model of `semver.coerce` on a raw version label. -/
def semverCoerce (s : String) : Option SemVer :=
  coerceScan s.toList

/-! ### Version entries and per-component resolution
(`contentClassified` handler, vlp.js lines 197-243) -/

/-- A version descriptor as supplied by the Antora content catalog: the raw
label and the prerelease field (`none` models JavaScript `undefined`). -/
structure VersionEntry where
  version : String
  prerelease : Option String
deriving DecidableEq

/-- An entry of `parsedVersions` (vlp.js lines 204-210): raw label, coerced
semver and the untouched prerelease field. -/
structure ParsedVersion where
  version : String
  semver : SemVer
  prerelease : Option String
deriving DecidableEq

/-- vlp.js lines 204-210: map each entry to `{version, semver, prerelease}`
and drop entries whose label does not coerce (the map and the
`.filter((v) => v.semver)` are fused into one `filterMap`). -/
def parsedVersions (versions : List VersionEntry) : List ParsedVersion :=
  versions.filterMap fun v =>
    (semverCoerce v.version).map fun s => ⟨v.version, s, v.prerelease⟩

/-- Comparator order backing `parsedVersions.sort((a, b) =>
semver.rcompare(a.semver, b.semver))` (vlp.js line 213): `a` may precede `b`
iff `rcompare(a, b) ≤ 0`, i.e. `a`'s semver is not below `b`'s. -/
def vGe (a b : ParsedVersion) : Prop := ¬ svLt a.semver b.semver

instance : DecidableRel vGe := fun a b => by
  unfold vGe; infer_instance

instance : IsTotal ParsedVersion vGe := by
  constructor
  intro a b
  unfold vGe svLt
  omega

instance : IsTrans ParsedVersion vGe := by
  constructor
  intro a b c hab hbc
  unfold vGe svLt at *
  omega

/-- vlp.js line 213: descending stable sort of the parsed versions.
`Array.prototype.sort` is stable and the comparator is a total preorder, so
the result is the unique stable descending ordering; `insertionSort` with
`vGe` computes exactly that list. -/
def sortedVersions (versions : List VersionEntry) : List ParsedVersion :=
  (parsedVersions versions).insertionSort vGe

/-- One record of `latestVersionsList` (vlp.js lines 224-228). -/
structure ComponentEntry where
  componentName : String
  latestStableObj : Option ParsedVersion
  latestPrereleaseObj : Option ParsedVersion
deriving DecidableEq

/-- The per-component resolution computed by the `contentClassified`
handler (vlp.js lines 204-228): first sorted entry with
`prerelease === undefined` is the stable pointer, first with
`prerelease !== undefined` the prerelease pointer. -/
def resolveComponent (name : String) (versions : List VersionEntry) :
    ComponentEntry :=
  { componentName := name
    latestStableObj := (sortedVersions versions).find? fun v => v.prerelease.isNone
    latestPrereleaseObj := (sortedVersions versions).find? fun v => v.prerelease.isSome }

/-! ### Lemmas about the resolution -/

/-- Non-strict companion of `svLt`. -/
def svLe (a b : SemVer) : Prop := svLt a b ∨ a = b

theorem svLt_irrefl (a : SemVer) : ¬ svLt a a := by
  unfold svLt; omega

theorem svLe_of_not_lt {a b : SemVer} (h : ¬ svLt a b) : svLe b a := by
  by_cases h2 : svLt b a
  · exact Or.inl h2
  · exact Or.inr (svLt_connex h2 h)

/-- The first entry that `find?` accepts in a `vGe`-sorted list has maximal
semver among all accepted entries of the list. -/
theorem find?_max_of_sorted {p : ParsedVersion → Bool} :
    ∀ {l : List ParsedVersion}, l.Sorted vGe → ∀ {v : ParsedVersion},
      l.find? p = some v → ∀ w ∈ l, p w = true → svLe w.semver v.semver := by
  intro l
  induction l with
  | nil => intro _ v h; simp at h
  | cons x xs ih =>
    intro hs v hv w hw hp
    by_cases hx : p x
    · rw [List.find?_cons_of_pos _ hx] at hv
      injection hv with hv
      subst hv
      rcases List.mem_cons.mp hw with rfl | hmem
      · exact Or.inr rfl
      · exact svLe_of_not_lt (List.rel_of_sorted_cons hs w hmem)
    · rw [List.find?_cons_of_neg _ (by simpa using hx)] at hv
      rcases List.mem_cons.mp hw with rfl | hmem
      · exact absurd hp hx
      · exact ih hs.of_cons hv w hmem hp

/-- Stability of the descending sort: among entries whose coerced value is
a fixed `s`, the sorted list preserves the input order (the filtered
sublists coincide). Auxiliary step for the inserted element. -/
theorem filter_orderedInsert_of_eq {s : SemVer} {x : ParsedVersion}
    (hx : x.semver = s) :
    ∀ l : List ParsedVersion,
      (l.orderedInsert vGe x).filter (fun y => decide (y.semver = s)) =
        x :: l.filter (fun y => decide (y.semver = s))
  | [] => by simp [List.orderedInsert, hx]
  | b :: l => by
    rw [List.orderedInsert]
    by_cases hr : vGe x b
    · simp [hr, List.filter_cons, hx]
    · have hb : ¬ b.semver = s := by
        intro hbs
        apply hr
        intro hlt
        rw [hx, hbs] at hlt
        exact svLt_irrefl s hlt
      simp [hr, List.filter_cons, hb, filter_orderedInsert_of_eq hx l]

/-- Stability auxiliary: inserting an entry with a different coerced value
does not disturb the filtered sublist. -/
theorem filter_orderedInsert_of_ne {s : SemVer} {x : ParsedVersion}
    (hx : ¬ x.semver = s) :
    ∀ l : List ParsedVersion,
      (l.orderedInsert vGe x).filter (fun y => decide (y.semver = s)) =
        l.filter (fun y => decide (y.semver = s))
  | [] => by simp [List.orderedInsert, hx]
  | b :: l => by
    rw [List.orderedInsert]
    by_cases hr : vGe x b
    · simp [hr, List.filter_cons, hx]
    · simp [hr, List.filter_cons, filter_orderedInsert_of_ne hx l]

/-- Stability of the whole sort with respect to a fixed coerced value. -/
theorem filter_insertionSort (s : SemVer) :
    ∀ l : List ParsedVersion,
      (l.insertionSort vGe).filter (fun y => decide (y.semver = s)) =
        l.filter (fun y => decide (y.semver = s))
  | [] => rfl
  | a :: l => by
    rw [List.insertionSort]
    by_cases ha : a.semver = s
    · rw [filter_orderedInsert_of_eq ha, filter_insertionSort s l]
      simp [List.filter_cons, ha]
    · rw [filter_orderedInsert_of_ne ha, filter_insertionSort s l]
      simp [List.filter_cons, ha]

/-! ### Claim theorems about version resolution -/

/-- C1: for every component version list, a selected stable pointer is an
entry without a prerelease flag whose semantic rank is maximal among
non-prerelease parsed entries; a selected prerelease pointer is a
prerelease-flagged entry of maximal rank among prerelease-flagged parsed
entries; and every ranked entry stems from an input entry whose label
coerces to a semantic version (unparseable labels are excluded from
ranking, and the resolution is a total function, so they never abort it). -/
theorem resolveComponent_pointer_maximal (name : String)
    (versions : List VersionEntry) (v : ParsedVersion) :
    ((resolveComponent name versions).latestStableObj = some v →
      v.prerelease = none ∧
        ∀ w ∈ parsedVersions versions, w.prerelease = none →
          svLe w.semver v.semver) ∧
    ((resolveComponent name versions).latestPrereleaseObj = some v →
      v.prerelease ≠ none ∧
        ∀ w ∈ parsedVersions versions, w.prerelease ≠ none →
          svLe w.semver v.semver) ∧
    (∀ w ∈ parsedVersions versions,
      ∃ e ∈ versions, e.version = w.version ∧ e.prerelease = w.prerelease ∧
        semverCoerce e.version = some w.semver) := by
  have hsorted : (sortedVersions versions).Sorted vGe :=
    List.sorted_insertionSort vGe (parsedVersions versions)
  refine ⟨?_, ?_, ?_⟩
  · intro h
    have hp := List.find?_some h
    constructor
    · exact Option.isNone_iff_eq_none.mp hp
    · intro w hw hwnone
      refine find?_max_of_sorted hsorted h w ?_ ?_
      · exact (List.mem_insertionSort vGe).mpr hw
      · simp [hwnone]
  · intro h
    have hp := List.find?_some h
    constructor
    · intro hnone
      rw [hnone] at hp
      simp at hp
    · intro w hw hwsome
      refine find?_max_of_sorted hsorted h w ?_ ?_
      · exact (List.mem_insertionSort vGe).mpr hw
      · exact Option.isSome_iff_ne_none.mpr hwsome
  · intro w hw
    rcases List.mem_filterMap.mp hw with ⟨e, he, hfe⟩
    rcases Option.map_eq_some'.mp hfe with ⟨s, hs, hmk⟩
    refine ⟨e, he, ?_, ?_, ?_⟩
    · rw [← hmk]
    · rw [← hmk]
    · rw [hs, ← hmk]

/-- C1 witness: a concrete run where the stable pointer is selected and the
hypotheses of the claim theorem are discharged at that input. -/
theorem resolveComponent_pointer_maximal_witness :
    (⟨"2.0.0", ⟨2, 0, 0⟩, none⟩ : ParsedVersion).prerelease = none ∧
      ∀ w ∈ parsedVersions [⟨"2.0.0", none⟩, ⟨"1.0.0", none⟩],
        w.prerelease = none →
          svLe w.semver (⟨"2.0.0", ⟨2, 0, 0⟩, none⟩ : ParsedVersion).semver :=
  (resolveComponent_pointer_maximal "w" [⟨"2.0.0", none⟩, ⟨"1.0.0", none⟩]
    ⟨"2.0.0", ⟨2, 0, 0⟩, none⟩).1 (by decide)

/-- C7: for component `foo` with version labels `["1.0.0", "1.1.0-rc1",
"0.9.0"]`, only the second carrying a prerelease flag, the stable pointer
resolves to `1.0.0` and the prerelease pointer to `1.1.0-rc1`. -/
theorem resolveComponent_foo_example :
    ((resolveComponent "foo"
        [⟨"1.0.0", none⟩, ⟨"1.1.0-rc1", some "rc1"⟩, ⟨"0.9.0", none⟩]
      ).latestStableObj.map (fun v => v.version) = some "1.0.0") ∧
    ((resolveComponent "foo"
        [⟨"1.0.0", none⟩, ⟨"1.1.0-rc1", some "rc1"⟩, ⟨"0.9.0", none⟩]
      ).latestPrereleaseObj.map (fun v => v.version) = some "1.1.0-rc1") := by
  decide

/-- C10: the ranking looks only at the coerced `major.minor.patch` value of
a label (`"1.1.0-rc1"` coerces exactly as `"1.1.0"`); the stable/prerelease
classification is read solely off the explicit prerelease field, never off
the label text (an entry labelled `"1.1.0-rc1"` with the field absent is
selected as the stable pointer, an entry labelled `"1.0.0"` with the field
present is selected as the prerelease pointer); and the descending sort is
stable: among entries of equal coerced value the first-encountered input
order is preserved. -/
theorem ranking_coerce_only_flag_only_stable_order :
    (semverCoerce "1.1.0-rc1" = semverCoerce "1.1.0") ∧
    ((resolveComponent "x" [⟨"1.1.0-rc1", none⟩]).latestStableObj.map
        (fun v => v.version) = some "1.1.0-rc1") ∧
    ((resolveComponent "x" [⟨"1.1.0-rc1", none⟩]).latestPrereleaseObj
        = none) ∧
    ((resolveComponent "y" [⟨"1.0.0", some "p"⟩]).latestPrereleaseObj.map
        (fun v => v.version) = some "1.0.0") ∧
    ((resolveComponent "y" [⟨"1.0.0", some "p"⟩]).latestStableObj = none) ∧
    (∀ (versions : List VersionEntry) (s : SemVer),
      (sortedVersions versions).filter (fun y => decide (y.semver = s)) =
        (parsedVersions versions).filter (fun y => decide (y.semver = s))) := by
  refine ⟨by decide, by decide, by decide, by decide, by decide, ?_⟩
  intro versions s
  exact filter_insertionSort s (parsedVersions versions)

/-! ### The xref rewriting loop `modifyXrefsInText` (vlp.js lines 78-148)

The JavaScript regex is `xref:(latest|dev)@([^:]+):([^[]+)` with the `g`
flag.  `regex.exec` is called in a loop; after each match the regex object
keeps `lastIndex = matchStart + matchLength` (computed on the text the
match was found in), and the next `exec` call runs against the possibly
already REPLACED text from that saved offset.  Replacement uses
`String.prototype.replace` with a plain string pattern, i.e. it replaces
the first occurrence of the matched substring. -/

/-- Greedy match of the regex tail `([^:]+):([^[]+)` against the characters
following `xref:<pointer>@`: `g2` is the maximal nonempty run without `:`
(a `:` must follow), `g3` the maximal nonempty run without `[`. -/
def matchXrefTail (cs : List Char) : Option (List Char × List Char) :=
  match cs.span (fun c => c ≠ ':') with
  | ([], _) => none
  | (g2, ':' :: r2) =>
    match r2.span (fun c => c ≠ '[') with
    | ([], _) => none
    | (g3, _) => some (g2, g3)
  | (_, _) => none

/-- Try the whole regex at the start of `cs`; the alternation tries
`latest` first, then `dev` (at a fixed position at most one of the two
literal heads can match).  Returns the three capture groups. -/
def execAt (cs : List Char) : Option (List Char × List Char × List Char) :=
  if cs.take 12 = "xref:latest@".toList then
    (matchXrefTail (cs.drop 12)).map fun p => ("latest".toList, p.1, p.2)
  else if cs.take 9 = "xref:dev@".toList then
    (matchXrefTail (cs.drop 9)).map fun p => ("dev".toList, p.1, p.2)
  else none

/-- Leftmost match at position `≥ pos`: scan forward one character at a
time, as the regex engine does. -/
def execFromAux : List Char → Nat →
    Option (Nat × List Char × List Char × List Char)
  | [], _ => none
  | c :: rest, pos =>
    match execAt (c :: rest) with
    | some g => some (pos, g)
    | none => execFromAux rest (pos + 1)

/-- `regex.exec(text)` with `regex.lastIndex = i`. -/
def execFrom (text : List Char) (i : Nat) :
    Option (Nat × List Char × List Char × List Char) :=
  execFromAux (text.drop i) i

/-- The full matched substring `match[0]` rebuilt from the groups. -/
def fullXrefMatch (g1 g2 g3 : List Char) : List Char :=
  "xref:".toList ++ g1 ++ ['@'] ++ g2 ++ [':'] ++ g3

/-- `String.prototype.replace` with a string pattern: replace the first
occurrence of `pat` in the text.  (The `$`-substitution syntax of the
replacement string is not modelled; no replacement built by vlp.js from the
claims' inputs contains `$`.) -/
def replaceFirst : List Char → List Char → List Char → List Char
  | [], _, _ => []
  | c :: rest, pat, repl =>
    if pat.isPrefixOf (c :: rest) then repl ++ (c :: rest).drop pat.length
    else c :: replaceFirst rest pat repl

/-- Substring test used to state properties about rewritten documents. -/
def containsSub (pat : List Char) : List Char → Bool
  | [] => decide (pat = [])
  | c :: rest => pat.isPrefixOf (c :: rest) || containsSub pat (c :: rest).tail

/-- One step of the lookup in the `while` body (vlp.js lines 102-113):
find the component entry and pick the version for the pointer kind. -/
def lookupActualVersion (table : List ComponentEntry) (g1 g2 : List Char) :
    Option String :=
  match table.find? (fun e => e.componentName.toList = g2) with
  | some e =>
    if g1 = "latest".toList then e.latestStableObj.map (fun v => v.version)
    else if g1 = "dev".toList then
      e.latestPrereleaseObj.map (fun v => v.version)
    else none
  | none => none

/-- The `while (match !== null)` loop of `modifyXrefsInText` (vlp.js lines
83-139).  `lastIdx` is the regex object's `lastIndex`.  The JavaScript loop
can diverge for adversarial resolution tables (a version label may itself
contain new matches), so the model carries fuel and returns `none` iff the
modelled run did not finish within `fuel` iterations. -/
def modifyXrefsLoop (table : List ComponentEntry) :
    Nat → List Char → Nat → Option (List Char)
  | 0, _, _ => none
  | fuel + 1, text, lastIdx =>
    match execFrom text lastIdx with
    | none => some text
    | some (start, g1, g2, g3) =>
      let m := fullXrefMatch g1 g2 g3
      let newLast := start + m.length
      match lookupActualVersion table g1 g2 with
      | some ver =>
        let newXref := "xref:".toList ++ ver.toList ++ ['@'] ++ g2 ++
          [':'] ++ g3
        modifyXrefsLoop table fuel (replaceFirst text m newXref) newLast
      | none => modifyXrefsLoop table fuel text newLast

/-- `modifyXrefsInText(fileText, file, latestVersionsList)` (vlp.js lines
78-148); the `file` parameter only feeds logging and is omitted. -/
def modifyXrefsInText (text : List Char) (table : List ComponentEntry)
    (fuel : Nat) : Option (List Char) :=
  modifyXrefsLoop table fuel text 0

/-- A text position carrying `xref:latest` or `xref:dev`: the condition of
claim C9 ("no pointer name immediately after `xref:`") is the negation of
this scan. -/
def containsPointerToken : List Char → Bool
  | [] => false
  | c :: rest =>
    ((c :: rest).take 11 = "xref:latest".toList ||
      (c :: rest).take 8 = "xref:dev".toList) ||
    containsPointerToken rest

/-! ### Claim theorems about the xref rewriting -/

/-- C3 counterexample: the claim "every non-overlapping pointer occurrence
with a resolution is rewritten" fails.  The document
`xref:latest@foo:a[xref:latest@foo:b[x]` holds two non-overlapping
occurrences for component `foo`, whose stable resolution is the label `2`;
after the first replacement (`latest` → `2`) the text shrinks, the regex
object's saved `lastIndex` now lies beyond the start of the second
occurrence, and the loop terminates leaving `xref:latest@foo:b` (hence the
substring `latest@foo`) in the final text. -/
theorem modifyXrefs_skips_shifted_occurrence :
    ((resolveComponent "foo" [⟨"2", none⟩]).latestStableObj.map
        (fun v => v.version) = some "2") ∧
    ((modifyXrefsInText "xref:latest@foo:a[xref:latest@foo:b[x]".toList
        [resolveComponent "foo" [⟨"2", none⟩]] 5).map
      (fun r => containsSub "xref:latest@foo:b".toList r) = some true) := by
  decide

/-- C3 amended: each replacement substitutes the resolved version label for
the pointer name with component and remainder kept verbatim, but the scan
resumes from the regex's saved end-of-match offset computed on the
pre-replacement text, so an occurrence that a shorter replacement shifts
back across that offset can be left unrewritten.  On the claim's own
single-occurrence example the rewrite is complete: with foo's stable
resolution `2.3.0`, `xref:latest@foo:intro.adoc[Intro]` becomes
`xref:2.3.0@foo:intro.adoc[Intro]` and `latest@foo` no longer occurs. -/
theorem modifyXrefs_example_rewrite :
    (modifyXrefsInText "xref:latest@foo:intro.adoc[Intro]".toList
        [resolveComponent "foo" [⟨"2.3.0", none⟩]] 5 =
      some "xref:2.3.0@foo:intro.adoc[Intro]".toList) ∧
    ((modifyXrefsInText "xref:latest@foo:intro.adoc[Intro]".toList
        [resolveComponent "foo" [⟨"2.3.0", none⟩]] 5).map
      (fun r => containsSub "latest@foo".toList r) = some false) := by
  decide

/-- A successful `execAt` needs one of the two pointer heads in place. -/
theorem execAt_some_head {cs : List Char}
    {g : List Char × List Char × List Char} (h : execAt cs = some g) :
    cs.take 11 = "xref:latest".toList ∨ cs.take 8 = "xref:dev".toList := by
  unfold execAt at h
  by_cases h1 : cs.take 12 = "xref:latest@".toList
  · left
    have h11 : cs.take 11 = (cs.take 12).take 11 := by
      rw [List.take_take]
      norm_num
    rw [h11, h1]
    rfl
  · rw [if_neg h1] at h
    by_cases h2 : cs.take 9 = "xref:dev@".toList
    · right
      have h8 : cs.take 8 = (cs.take 9).take 8 := by
        rw [List.take_take]
        norm_num
      rw [h8, h2]
      rfl
    · rw [if_neg h2] at h
      exact absurd h (by simp)

/-- Without any pointer token in the text the regex never matches. -/
theorem execFromAux_none {cs : List Char}
    (h : containsPointerToken cs = false) :
    ∀ pos, execFromAux cs pos = none := by
  induction cs with
  | nil => intro pos; rfl
  | cons c rest ih =>
    intro pos
    simp only [containsPointerToken, Bool.or_eq_false_iff,
      decide_eq_false_iff_not] at h
    obtain ⟨⟨h1, h2⟩, h3⟩ := h
    unfold execFromAux
    cases hx : execAt (c :: rest) with
    | some g =>
      rcases execAt_some_head hx with hh | hh
      · exact absurd hh h1
      · exact absurd hh h2
    | none =>
      exact ih h3 (pos + 1)

/-- C9: a document whose text never carries `latest` or `dev` immediately
after `xref:` (in particular one whose xrefs all use literal version
labels) is returned unchanged by the rewriting loop, for any resolution
table: the first `exec` finds no match and the loop stops at once. -/
theorem modifyXrefs_noop_on_resolved (text : List Char)
    (table : List ComponentEntry) (fuel : Nat)
    (h : containsPointerToken text = false) (hf : 1 ≤ fuel) :
    modifyXrefsInText text table fuel = some text := by
  obtain ⟨f, rfl⟩ : ∃ f, fuel = f + 1 := ⟨fuel - 1, by omega⟩
  have he : execFrom text 0 = none := by
    unfold execFrom
    rw [List.drop_zero]
    exact execFromAux_none h 0
  unfold modifyXrefsInText modifyXrefsLoop
  rw [he]

/-- C9 witness: a concrete already-resolved document is left unchanged. -/
theorem modifyXrefs_noop_on_resolved_witness :
    containsPointerToken "xref:2.3.0@bar:page.adoc[P]".toList = false ∧
    1 ≤ 1 ∧
    modifyXrefsInText "xref:2.3.0@bar:page.adoc[P]".toList [] 1 =
      some "xref:2.3.0@bar:page.adoc[P]".toList :=
  ⟨by decide, by decide,
    modifyXrefs_noop_on_resolved _ [] 1 (by decide) (by decide)⟩

/-! ### POSIX path arithmetic (node:path) and `isSafePath`

Paths are modelled as segment lists.  `Segs` values produced by
`normSegs true` represent normalized absolute paths (the leading `/` is
implicit); `toSegs` splits a raw path string on `/`. -/

/-- Path segments. -/
abbrev Segs := List String

/-- Character-level splitter behind `toSegs` (kept kernel-reducible; the
library's `String.split` does not reduce in the kernel). -/
def splitSegsAux (cur : List Char) : List Char → List (List Char)
  | [] => [cur.reverse]
  | c :: cs =>
    if c = '/' then cur.reverse :: splitSegsAux [] cs
    else splitSegsAux (c :: cur) cs

/-- Split a raw path string into segments at `/`. -/
def toSegs (s : String) : Segs :=
  (splitSegsAux [] s.toList).map List.asString

/-- Does the path string start with `/` (`path.isAbsolute` on POSIX)? -/
def startsWithSlash (s : String) : Bool :=
  match s.toList with
  | '/' :: _ => true
  | _ => false

/-- Does the string start with `..`? -/
def startsWithTwoDots (s : String) : Bool :=
  match s.toList with
  | '.' :: '.' :: _ => true
  | _ => false

/-- One step of node's path normalization: drop empty and `.` segments,
let `..` pop the previous real segment; in an absolute path surplus `..`
at the root vanishes, in a relative one it accumulates.  The accumulator is
kept reversed. -/
def normStep (abs : Bool) (acc : Segs) (s : String) : Segs :=
  if s = "" ∨ s = "." then acc
  else if s = ".." then
    match acc with
    | [] => if abs then [] else [".."]
    | a :: rest => if a = ".." then ".." :: a :: rest else rest
  else s :: acc

/-- node's path normalization over raw segments. -/
def normSegs (abs : Bool) (segs : Segs) : Segs :=
  (segs.foldl (normStep abs) []).reverse

/-- `path.resolve(a, b)` with current working directory `cwd` (given as a
normalized absolute segment list): the right-most absolute argument wins,
everything to its right is appended, and the result is normalized. -/
def pathResolve (cwd : Segs) (a b : String) : Segs :=
  if startsWithSlash b then normSegs true (toSegs b)
  else if startsWithSlash a then normSegs true (toSegs a ++ toSegs b)
  else normSegs true (cwd ++ toSegs a ++ toSegs b)

/-- `path.resolve` of a single argument against `cwd`; `path.relative`
applies this to both of its arguments. -/
def resolveArg (cwd : Segs) (a : String) : Segs :=
  if startsWithSlash a then normSegs true (toSegs a)
  else normSegs true (cwd ++ toSegs a)

/-- `path.join` of an absolute, already-normalized directory with trailing
relative parts: concatenate and normalize. -/
def pathJoinAbs (dir : Segs) (rel : Segs) : Segs :=
  normSegs true (dir ++ rel)

/-- `path.relative(from, to)` on two normalized absolute segment lists:
drop the common prefix, go up once per remaining `from` segment, then down
the remaining `to` segments.  The result is always a relative path. -/
def pathRelative : Segs → Segs → Segs
  | [], ts => ts
  | f :: fs, [] => List.replicate (f :: fs).length ".."
  | f :: fs, t :: ts =>
    if f = t then pathRelative fs ts
    else List.replicate (f :: fs).length ".." ++ (t :: ts)

/-- `String.startsWith ".."` of the `/`-joined rendering of a relative
segment list: with `/` separators this holds iff the first segment starts
with `..`. -/
def startsWithDotDot : Segs → Bool
  | [] => false
  | s :: _ => startsWithTwoDots s

/-- `isSafePath(base, target)` (vlp.js lines 72-75) for an absolute,
normalized `target`: `path.relative(base, target)` must not start with
`..`.  The function's second test, `path.isAbsolute(relative)`, is always
false because `path.relative` never returns an absolute path, so it is
not modelled as able to reject. -/
def isSafePath (cwd : Segs) (base : String) (target : Segs) : Bool :=
  !(startsWithDotDot (pathRelative (resolveArg cwd base) target))

/-- Containment of a path under a root, as segment-prefix. -/
def withinRoot (root p : Segs) : Bool :=
  decide (p.take root.length = root)

/-- One pointer-creation attempt of the `sitePublished` handler (vlp.js
lines 294-320) for a single link name: compute `dirName`, `symlinkPath`
and `targetPath` exactly as the handler does, and return the
`(targetPath, symlinkPath)` pair passed to `createSymlink`, or `none` when
the `isSafePath` guard skips the creation. -/
def setPointer (cwd : Segs) (outputDir componentName version linkName : String) :
    Option (Segs × Segs) :=
  let dirName := pathResolve cwd outputDir componentName
  let symlinkPath := pathJoinAbs dirName (toSegs linkName)
  let targetPath := pathRelative dirName (pathJoinAbs dirName (toSegs version))
  if isSafePath cwd outputDir symlinkPath then some (targetPath, symlinkPath)
  else none

/-! ### `createSymlink` (vlp.js lines 54-69) over a one-path filesystem -/

/-- What can occupy the link path: a real directory (with an abstract
content tag), a plain file, or a symlink with its target string. -/
inductive FsEntry where
  | dir : List String → FsEntry
  | file : FsEntry
  | symlink : String → FsEntry
deriving DecidableEq

/-- `fs.existsSync(symlinkPath)`.  It FOLLOWS symlinks: a symlink whose
target does not exist (a dangling link) is reported as absent.
`targetExists` is the ambient filesystem fact of which target paths
currently resolve. -/
def existsSync (targetExists : String → Bool) (st : Option FsEntry) : Bool :=
  match st with
  | none => false
  | some (FsEntry.dir _) => true
  | some FsEntry.file => true
  | some (FsEntry.symlink t) => targetExists t

/-- `fs.symlinkSync(target, path)`: fails with `EEXIST` when any entry
occupies the path — dangling link included, since `symlinkSync` does not
follow the existing entry — otherwise creates the link. -/
def symlinkSync (target : String) (st : Option FsEntry) :
    Except String (Option FsEntry) :=
  match st with
  | some _ => Except.error "EEXIST"
  | none => Except.ok (some (FsEntry.symlink target))

/-- `createSymlink(targetPath, symlinkPath)` acting on the entry at the
link path (vlp.js lines 54-69): when `existsSync` reports the path
present, a directory (`lstatSync(...).isDirectory()`, which does not
follow links) is left untouched and creation is skipped, and any other
entry is unlinked first; then `symlinkSync` runs.  When `existsSync`
reports the path absent — also when a dangling link occupies it —
`symlinkSync` runs directly against whatever is there. -/
def createSymlink (targetExists : String → Bool) (targetPath : String)
    (st : Option FsEntry) : Except String (Option FsEntry) :=
  if existsSync targetExists st then
    match st with
    | some (FsEntry.dir c) => Except.ok (some (FsEntry.dir c))
    | _ => symlinkSync targetPath none
  else symlinkSync targetPath st

/-- `n` successive invocations of `createSymlink` with the same inputs. -/
def createSymlinkIter (targetExists : String → Bool) (targetPath : String) :
    Nat → Option FsEntry → Except String (Option FsEntry)
  | 0, st => Except.ok st
  | n + 1, st =>
    (createSymlink targetExists targetPath st).bind
      (createSymlinkIter targetExists targetPath n)

/-! ### Path lemmas -/

/-- A segment that normalization passes through unchanged. -/
def cleanSeg (s : String) : Prop :=
  ¬(s = "" ∨ s = "." ∨ s = "..")

/-- The segments that survive normalization of a `..`-free relative part. -/
def cleanSegs (y : Segs) : Segs :=
  y.filter (fun s => !(decide (s = "" ∨ s = ".")))

theorem foldl_normStep_clean {x : Segs} (hx : ∀ s ∈ x, cleanSeg s) :
    ∀ acc, x.foldl (normStep true) acc = x.reverse ++ acc := by
  induction x with
  | nil => intro acc; rfl
  | cons s xs ih =>
    intro acc
    have hs : cleanSeg s := hx s (List.mem_cons_self s xs)
    have hxs : ∀ u ∈ xs, cleanSeg u := fun u hu => hx u (List.mem_cons_of_mem s hu)
    unfold cleanSeg at hs
    have hstep : normStep true acc s = s :: acc := by
      unfold normStep
      rw [if_neg (fun h => hs (h.elim Or.inl (fun h2 => Or.inr (Or.inl h2))))]
      rw [if_neg (fun h => hs (Or.inr (Or.inr h)))]
    rw [List.foldl_cons, hstep, ih hxs]
    simp

theorem foldl_normStep_no_dotdot {y : Segs} (hy : ".." ∉ y) :
    ∀ acc, y.foldl (normStep true) acc = (cleanSegs y).reverse ++ acc := by
  induction y with
  | nil => intro acc; rfl
  | cons s ys ih =>
    intro acc
    have hs : s ≠ ".." := fun h => hy (h ▸ List.mem_cons_self s ys)
    have hys : ".." ∉ ys := fun h => hy (List.mem_cons_of_mem s h)
    rw [List.foldl_cons]
    by_cases hdrop : s = "" ∨ s = "."
    · have hstep : normStep true acc s = acc := by
        unfold normStep
        rw [if_pos hdrop]
      rw [hstep, ih hys]
      unfold cleanSegs
      rw [List.filter_cons]
      simp [hdrop]
    · have hstep : normStep true acc s = s :: acc := by
        unfold normStep
        rw [if_neg hdrop, if_neg hs]
      rw [hstep, ih hys]
      push_neg at hdrop
      simp [cleanSegs, List.filter_cons, hdrop.1, hdrop.2]

/-- Appending a `..`-free relative part to any raw path normalizes to the
normalization of the path followed by the cleaned part. -/
theorem normSegs_append_no_dotdot {y : Segs} (hy : ".." ∉ y) (x : Segs) :
    normSegs true (x ++ y) = normSegs true x ++ cleanSegs y := by
  unfold normSegs
  rw [List.foldl_append, foldl_normStep_no_dotdot hy]
  simp

/-- Normalization leaves no empty, `.` or `..` segments behind. -/
theorem mem_normSegs_clean (z : Segs) : ∀ s ∈ normSegs true z, cleanSeg s := by
  suffices h : ∀ acc, (∀ s ∈ acc, cleanSeg s) →
      ∀ s ∈ z.foldl (normStep true) acc, cleanSeg s by
    intro s hs
    exact h [] (by simp) s (List.mem_reverse.mp hs)
  induction z with
  | nil => intro acc hacc; exact hacc
  | cons c zs ih =>
    intro acc hacc
    rw [List.foldl_cons]
    apply ih
    intro s hs
    unfold normStep at hs
    by_cases h1 : c = "" ∨ c = "."
    · rw [if_pos h1] at hs
      exact hacc s hs
    · rw [if_neg h1] at hs
      by_cases h2 : c = ".."
      · rw [if_pos h2] at hs
        cases acc with
        | nil => simp at hs
        | cons a rest =>
          have ha : cleanSeg a := hacc a (List.mem_cons_self a rest)
          have hane : ¬ a = ".." := fun h => ha (Or.inr (Or.inr h))
          have hs2 : s ∈ (if a = ".." then ".." :: a :: rest else rest) := hs
          rw [if_neg hane] at hs2
          exact hacc s (List.mem_cons_of_mem a hs2)
      · rw [if_neg h2] at hs
        rcases List.mem_cons.mp hs with rfl | hmem
        · intro hbad
          rcases hbad with hb | hb | hb
          · exact h1 (Or.inl hb)
          · exact h1 (Or.inr hb)
          · exact h2 hb
        · exact hacc s hmem

/-- Normalizing an already-clean segment list is the identity. -/
theorem normSegs_of_clean {z : Segs} (hz : ∀ s ∈ z, cleanSeg s) :
    normSegs true z = z := by
  unfold normSegs
  rw [foldl_normStep_clean hz]
  simp

/-- `path.relative` from a directory to a path below it returns the
remaining segments. -/
theorem pathRelative_append : ∀ d c : Segs, pathRelative d (d ++ c) = c := by
  intro d
  induction d with
  | nil => intro c; rfl
  | cons f fs ih =>
    intro c
    show pathRelative (f :: fs) (f :: (fs ++ c)) = c
    unfold pathRelative
    rw [if_pos rfl]
    exact ih c

/-- The segments surviving `cleanSegs` of a `..`-free list stay `..`-free
and clean. -/
theorem cleanSegs_clean {y : Segs} (hy : ".." ∉ y) :
    ∀ s ∈ cleanSegs y, cleanSeg s := by
  intro s hs
  unfold cleanSegs at hs
  have hmem := List.mem_of_mem_filter hs
  have hp := List.of_mem_filter hs
  simp only [Bool.not_eq_true', decide_eq_false_iff_not] at hp
  intro hbad
  rcases hbad with hb | hb | hb
  · exact hp (Or.inl hb)
  · exact hp (Or.inr hb)
  · exact hy (hb ▸ hmem)

theorem cleanSegs_idem {y : Segs} :
    cleanSegs (cleanSegs y) = cleanSegs y := by
  unfold cleanSegs
  rw [List.filter_filter]
  simp

/-- A passing `isSafePath`-style test forces segment-prefix containment:
if `path.relative a b` does not start with `..`, then `a` is a segment
prefix of `b`. -/
theorem withinRoot_of_guard :
    ∀ a b : Segs, startsWithDotDot (pathRelative a b) = false →
      withinRoot a b = true := by
  intro a
  induction a with
  | nil =>
    intro b _
    unfold withinRoot
    simp
  | cons f fs ih =>
    intro b hg
    have htwo : startsWithTwoDots ".." = true := by decide
    match b with
    | [] =>
      exfalso
      unfold pathRelative at hg
      rw [List.length_cons, List.replicate_succ] at hg
      simp [startsWithDotDot, htwo] at hg
    | t :: ts =>
      unfold pathRelative at hg
      by_cases hft : f = t
      · rw [if_pos hft] at hg
        have h2 := ih ts hg
        unfold withinRoot at h2 ⊢
        simp only [decide_eq_true_eq] at h2 ⊢
        simp [List.take_cons, hft, h2]
      · exfalso
        rw [if_neg hft] at hg
        rw [List.length_cons, List.replicate_succ, List.cons_append] at hg
        simp [startsWithDotDot, htwo] at hg

/-- `path.resolve` of one argument only produces clean segments. -/
theorem mem_resolveArg_clean (cwd : Segs) (a : String) :
    ∀ s ∈ resolveArg cwd a, cleanSeg s := by
  unfold resolveArg
  split
  · exact mem_normSegs_clean (toSegs a)
  · exact mem_normSegs_clean (cwd ++ toSegs a)

/-- A root is always a segment prefix of itself followed by anything. -/
theorem withinRoot_append (root rest : Segs) :
    withinRoot root (root ++ rest) = true := by
  unfold withinRoot
  simp [List.take_left]

/-! ### Claim theorems about symlink path safety -/

/-- C2 counterexample: the claim fails for version labels carrying `..`
segments.  The label `../../etc/p1` coerces (it contains the digit `1`),
so it becomes component `c`'s stable pointer; with output root `/out` the
guard `isSafePath` only inspects the link path `/out/c/latest` and passes,
so `createSymlink` is invoked with the traversal-capable relative target
`../../etc/p1`, whose resolution from the link's directory is `/etc/p1` —
outside the output root. -/
theorem setPointer_escaping_target :
    ((resolveComponent "c" [⟨"../../etc/p1", none⟩]).latestStableObj.map
        (fun v => v.version) = some "../../etc/p1") ∧
    (setPointer ["home"] "/out" "c" "../../etc/p1" "latest" =
      some (["..", "..", "etc", "p1"], ["out", "c", "latest"])) ∧
    (startsWithDotDot ["..", "..", "etc", "p1"] = true) ∧
    (withinRoot (resolveArg ["home"] "/out")
        (pathJoinAbs (pathResolve ["home"] "/out" "c")
          ["..", "..", "etc", "p1"]) = false) := by
  decide

/-- C2 amended: whenever a pointer link is created, the link's own
resolved path lies inside the output root (the `isSafePath` guard
enforces exactly this), and the target is a relative segment list; when
neither the component name nor the version label contributes a `..`
segment (and the component name is not absolute), the target is free of
`..` segments and its resolution from the component directory stays
inside the output root.  A version label containing `..` segments,
however, yields a traversal-capable target that the guard does not
inspect. -/
theorem setPointer_guarded (cwd : Segs)
    (outputDir comp ver link : String) (target linkPath : Segs)
    (h : setPointer cwd outputDir comp ver link = some (target, linkPath)) :
    withinRoot (resolveArg cwd outputDir) linkPath = true ∧
    (".." ∉ toSegs comp → startsWithSlash comp = false →
      ".." ∉ toSegs ver →
      ".." ∉ target ∧
        withinRoot (resolveArg cwd outputDir)
          (pathJoinAbs (pathResolve cwd outputDir comp) target) = true) := by
  simp only [setPointer] at h
  split at h
  case isFalse => exact absurd h (by simp)
  case isTrue hg =>
    injection h with h2
    have ht : pathRelative (pathResolve cwd outputDir comp)
        (pathJoinAbs (pathResolve cwd outputDir comp) (toSegs ver)) =
          target := congrArg Prod.fst h2
    have hl : pathJoinAbs (pathResolve cwd outputDir comp) (toSegs link) =
        linkPath := congrArg Prod.snd h2
    constructor
    · apply withinRoot_of_guard
      unfold isSafePath at hg
      rw [hl] at hg
      simpa using hg
    · intro hc hcs hv
      have hdir : pathResolve cwd outputDir comp =
          resolveArg cwd outputDir ++ cleanSegs (toSegs comp) := by
        unfold pathResolve resolveArg
        rw [if_neg (by simp [hcs])]
        by_cases hod : startsWithSlash outputDir
        · rw [if_pos hod, if_pos hod]
          exact normSegs_append_no_dotdot hc (toSegs outputDir)
        · rw [if_neg hod, if_neg hod]
          exact normSegs_append_no_dotdot hc (cwd ++ toSegs outputDir)
      have hclean : ∀ s ∈ pathResolve cwd outputDir comp, cleanSeg s := by
        rw [hdir]
        intro s hs
        rcases List.mem_append.mp hs with h1 | h1
        · exact mem_resolveArg_clean cwd outputDir s h1
        · exact cleanSegs_clean hc s h1
      have hjoin : pathJoinAbs (pathResolve cwd outputDir comp)
          (toSegs ver) =
            pathResolve cwd outputDir comp ++ cleanSegs (toSegs ver) := by
        unfold pathJoinAbs
        rw [normSegs_append_no_dotdot hv, normSegs_of_clean hclean]
      have htv : target = cleanSegs (toSegs ver) := by
        rw [← ht, hjoin, pathRelative_append]
      have hv2 : ".." ∉ cleanSegs (toSegs ver) := by
        intro hmem
        exact cleanSegs_clean hv ".." hmem (Or.inr (Or.inr rfl))
      constructor
      · rw [htv]; exact hv2
      · have hres : pathJoinAbs (pathResolve cwd outputDir comp) target =
            resolveArg cwd outputDir ++
              (cleanSegs (toSegs comp) ++ cleanSegs (toSegs ver)) := by
          unfold pathJoinAbs
          rw [htv, normSegs_append_no_dotdot hv2, normSegs_of_clean hclean,
            cleanSegs_idem, hdir, List.append_assoc]
        rw [hres]
        exact withinRoot_append _ _

/-- C2 witness: a clean component and version label produce a link inside
the root with a non-traversal target that resolves inside the root. -/
theorem setPointer_guarded_witness :
    withinRoot (resolveArg ["h"] "/out") ["out", "c", "latest"] = true ∧
    (".." ∉ (["1.2.3"] : Segs) ∧
      withinRoot (resolveArg ["h"] "/out")
        (pathJoinAbs (pathResolve ["h"] "/out" "c") ["1.2.3"]) = true) :=
  ⟨(setPointer_guarded ["h"] "/out" "c" "1.2.3" "latest" ["1.2.3"]
      ["out", "c", "latest"] (by decide)).1,
    (setPointer_guarded ["h"] "/out" "c" "1.2.3" "latest" ["1.2.3"]
      ["out", "c", "latest"] (by decide)).2 (by decide) (by decide)
      (by decide)⟩

/-! ### Claim theorems about `createSymlink` -/

/-- C4 counterexample: the claim "the second call raises no error" fails,
because `fs.existsSync` follows symlinks.  With the link's target absent
on disk (`targetExists` constantly false — e.g. the version directory was
never published), the first call on an empty path succeeds and creates a
dangling link; on the second, identical call `existsSync` reports the
dangling link as absent, the unlink branch is skipped, and `symlinkSync`
hits the occupied path and throws `EEXIST`. -/
theorem createSymlink_dangling_eexist :
    (createSymlink (fun _ => false) "2.3.0" none =
      Except.ok (some (FsEntry.symlink "2.3.0"))) ∧
    (createSymlink (fun _ => false) "2.3.0"
        (some (FsEntry.symlink "2.3.0")) = Except.error "EEXIST") :=
  ⟨rfl, rfl⟩

/-- C4 amended: when the link's target version path exists on disk (the
phase-ordering invariant: version directories are published before links
are created, so the created link is not dangling), any successful call is
idempotent — the second call with identical inputs raises no error and
leaves the filesystem state exactly as after the first.  When the target
is absent, the first call leaves a dangling link and the second call
throws `EEXIST`. -/
theorem createSymlink_idempotent_of_target_exists
    (targetExists : String → Bool) (t : String) (st st2 : Option FsEntry)
    (h : targetExists t = true)
    (hfirst : createSymlink targetExists t st = Except.ok st2) :
    createSymlink targetExists t st2 = Except.ok st2 := by
  match st with
  | none =>
    rw [show createSymlink targetExists t none =
      Except.ok (some (FsEntry.symlink t)) from rfl] at hfirst
    injection hfirst with h2
    subst h2
    simp [createSymlink, existsSync, h, symlinkSync]
  | some (FsEntry.dir c) =>
    rw [show createSymlink targetExists t (some (FsEntry.dir c)) =
      Except.ok (some (FsEntry.dir c)) from rfl] at hfirst
    injection hfirst with h2
    subst h2
    rfl
  | some FsEntry.file =>
    rw [show createSymlink targetExists t (some FsEntry.file) =
      Except.ok (some (FsEntry.symlink t)) from rfl] at hfirst
    injection hfirst with h2
    subst h2
    simp [createSymlink, existsSync, h, symlinkSync]
  | some (FsEntry.symlink u) =>
    cases hu : targetExists u with
    | true =>
      have h1 : createSymlink targetExists t (some (FsEntry.symlink u)) =
          Except.ok (some (FsEntry.symlink t)) := by
        simp [createSymlink, existsSync, hu, symlinkSync]
      rw [h1] at hfirst
      injection hfirst with h2
      subst h2
      simp [createSymlink, existsSync, h, symlinkSync]
    | false =>
      exfalso
      have h1 : createSymlink targetExists t (some (FsEntry.symlink u)) =
          Except.error "EEXIST" := by
        simp [createSymlink, existsSync, hu, symlinkSync]
      rw [h1] at hfirst
      exact absurd hfirst (by simp)

/-- C4 witness: with an existing target, the second call on the state the
first call produced succeeds and changes nothing. -/
theorem createSymlink_idempotent_of_target_exists_witness :
    createSymlink (fun _ => true) "2.3.0"
        (some (FsEntry.symlink "2.3.0")) =
      Except.ok (some (FsEntry.symlink "2.3.0")) :=
  createSymlink_idempotent_of_target_exists (fun _ => true) "2.3.0" none
    (some (FsEntry.symlink "2.3.0")) rfl rfl

/-- C5: a directory occupying the link path survives any number of
`createSymlink` invocations completely untouched (its content tag is
preserved), and every invocation returns without error, whatever the
ambient target-existence facts: `existsSync` reports a real directory as
present and `lstatSync(...).isDirectory()` diverts into the skip
branch. -/
theorem createSymlink_preserves_dir (targetExists : String → Bool)
    (t : String) (c : List String) :
    ∀ n, createSymlinkIter targetExists t n (some (FsEntry.dir c)) =
      Except.ok (some (FsEntry.dir c))
  | 0 => rfl
  | n + 1 => by
    show (createSymlink targetExists t (some (FsEntry.dir c))).bind
      (createSymlinkIter targetExists t n) = _
    rw [show createSymlink targetExists t (some (FsEntry.dir c)) =
      Except.ok (some (FsEntry.dir c)) from rfl]
    exact createSymlink_preserves_dir targetExists t c n

/-! ### The `index.html` rewrite (`sitePublished` handler, vlp.js 333-371)

The handler builds `new RegExp(`(comp)/ver(/|\b)`, "g")` from a template
literal.  Inside a (non-raw) template literal `\b` is the BACKSPACE escape
(U+0008), not a regex word boundary, so the compiled pattern's final group
matches a literal `/` or a literal backspace character.  `comp` and `ver`
are injected unescaped; both stem from the startPage regexes `[\w.-]+`, in
which `.` is the only regex metacharacter, so a pattern character matches
any text character when it is `.` and itself otherwise. -/

/-- One pattern character (from a `[\w.-]+` label) against one text
character: `.` is a wildcard. -/
def patCharMatches (p c : Char) : Bool :=
  p = '.' || p = c

/-- Match a label (with `.`-wildcards) against the text, returning the
consumed text and the rest. -/
def matchLabel : List Char → List Char → Option (List Char × List Char)
  | [], rest => some ([], rest)
  | _ :: _, [] => none
  | p :: ps, c :: cs =>
    if patCharMatches p c then
      (matchLabel ps cs).map fun q => (c :: q.1, q.2)
    else none

/-- The backspace character that `\b` denotes inside a template literal. -/
def backspaceChar : Char := Char.ofNat 8

/-- Try the whole pattern `(comp)/ver(/|\x08)` at the start of the text:
capture group 1 is the text consumed by `comp`, group 2 the final `/` or
backspace.  Returns `(group1, group2, rest)`. -/
def matchVersionPatternAt (comp ver text : List Char) :
    Option (List Char × Char × List Char) :=
  match matchLabel comp text with
  | none => none
  | some (g1, r1) =>
    match r1 with
    | '/' :: r2 =>
      match matchLabel ver r2 with
      | none => none
      | some (_, r3) =>
        match r3 with
        | c :: r4 =>
          if c = '/' || c = backspaceChar then some (g1, c, r4) else none
        | [] => none
    | _ => none

/-- Global regex replacement with replacement string `"$1/latest$2"`:
scan left to right, replace each match by the captured component text,
`/latest` and the captured trailing character, and continue after the
match.  The fuel is one unit per consumed character; every match consumes
at least the `/` and the trailing character, so `text.length` fuel always
suffices. -/
def replaceVersionPatternAux (comp ver : List Char) :
    Nat → List Char → List Char
  | 0, text => text
  | _ + 1, [] => []
  | fuel + 1, c :: cs =>
    match matchVersionPatternAt comp ver (c :: cs) with
    | some (g1, g2, rest) =>
      g1 ++ "/latest".toList ++ [g2] ++
        replaceVersionPatternAux comp ver fuel rest
    | none => c :: replaceVersionPatternAux comp ver fuel cs

/-- `indexContent.replace(versionPattern, "$1/latest$2")` (vlp.js 363). -/
def replaceVersionPattern (comp ver text : List Char) : List Char :=
  replaceVersionPatternAux comp ver text.length text

/-- The inputs the `index.html` block of the `sitePublished` handler reads
(vlp.js lines 333-371): the entry page text, the binding captured in
`playbookBuilt`, and the filesystem fact whether
`outputDir/<component>/latest` exists. -/
structure IndexRewriteInput where
  indexContent : List Char
  startPageComponent : Option String
  startPageVersion : Option String
  latestExists : Bool

/-- Result: the text written back to `index.html` and whether the backup
copy `index.html.bkp` was written. -/
structure IndexRewriteResult where
  finalContent : List Char
  backupWritten : Bool
deriving DecidableEq

/-- The `index.html` rewrite (vlp.js lines 333-371), given that
`index.html` exists: when both binding halves are present and the latest
pointer exists on disk, back up the page and apply the global replacement;
otherwise write the content back unchanged with no backup. -/
def rewriteIndex (inp : IndexRewriteInput) : IndexRewriteResult :=
  match inp.startPageComponent, inp.startPageVersion with
  | some comp, some ver =>
    if inp.latestExists then
      { finalContent :=
          replaceVersionPattern comp.toList ver.toList inp.indexContent
        backupWritten := true }
    else
      { finalContent := inp.indexContent, backupWritten := false }
  | _, _ => { finalContent := inp.indexContent, backupWritten := false }

/-! ### Claim theorems about the entry-page rewrite -/

/-- C8: with the binding present but no `latest` pointer on disk, the
entry page text is byte-identical to its pre-rewrite form and no backup or
replacement is performed. -/
theorem rewriteIndex_no_latest_unchanged (content : List Char)
    (comp ver : String) :
    rewriteIndex ⟨content, some comp, some ver, false⟩ =
      ⟨content, false⟩ := rfl

/-- C6: the claim is the code's evident intent, but the code misses
occurrences.  The pattern is built as `(comp)/ver(/|\b)` inside a
JavaScript template literal, where `\b` is the backspace escape (U+0008),
not a regex word boundary; so only occurrences followed by `/` or a
literal backspace are replaced.  With binding `3.0@bar`, an existing
`latest` pointer and entry page `<a href="bar/3.0">docs</a>`, the
occurrence `bar/3.0` (followed by `"`) is left unchanged even though the
backup is written; an occurrence followed by `/` is replaced as
documented. -/
theorem rewriteIndex_backspace_escape_misses_occurrence :
    (rewriteIndex ⟨"<a href=\"bar/3.0\">docs</a>".toList, some "bar",
        some "3.0", true⟩ =
      ⟨"<a href=\"bar/3.0\">docs</a>".toList, true⟩) ∧
    (containsSub "bar/3.0".toList "<a href=\"bar/3.0\">docs</a>".toList
      = true) ∧
    (containsSub "bar/latest".toList
      (rewriteIndex ⟨"<a href=\"bar/3.0\">docs</a>".toList, some "bar",
        some "3.0", true⟩).finalContent = false) ∧
    (rewriteIndex ⟨"<a href=\"bar/3.0/\">".toList, some "bar",
        some "3.0", true⟩ =
      ⟨"<a href=\"bar/latest/\">".toList, true⟩) := by
  decide
